import Mathlib

/-!
Verification of the serial-communicator repository.

The repository is a Rust program that speaks to a microcontroller over a
serial line.  We embed the pure content of its functions here:

* bytes are natural numbers below 256, a transport stream is a `List Nat`;
* the byte codec of `src/lib.rs`: the read functions become little-endian
  (the native order of the target platforms) deserialization over byte
  lists; the write functions cast the integer value itself to a pointer
  (`val as *const u64`) and emit the bytes located at address `val`, so
  they are modelled against an explicit memory oracle;
* the line codec (`read_string_until_byte`, `write_str_ends_with`) becomes
  a splitting function on the stream;
* the action parser (`impl TryFrom<&str> for Action`) is translated token
  for token, with `split_ascii_whitespace` reimplemented over byte lists;
  the `String` payloads carried by the Rust error constructors are log
  messages only and are dropped;
* the handshake loop and the blocking command loop of `src/main.rs` are
  state machines driven by oracles: each transport or stdin operation
  consumes the next answer of an oracle, which lets us model transient
  I/O errors exactly where the Rust `Result`s allow them.
-/

namespace SerialCommunicator

/-! ## Byte codec (src/lib.rs lines 15-118) -/

/-- Little-endian serialization of a value into `w` bytes (truncating):
the memory image of a `w`-byte integer on the little-endian target, and
what the write functions were evidently intended to emit. -/
def toBytes : Nat → Nat → List Nat
  | 0, _ => []
  | w + 1, v => v % 256 :: toBytes w (v / 256)

/-- Little-endian deserialization of a byte list, the reinterpretation
performed by `read_qword_raw`/`read_dword_raw`. -/
def fromBytes : List Nat → Nat
  | [] => 0
  | b :: rest => b + 256 * fromBytes rest

/-- `Read::read_exact` on a stream: take exactly `n` bytes or fail. -/
def readExact (n : Nat) (stream : List Nat) : Option (List Nat × List Nat) :=
  if n ≤ stream.length then some (stream.take n, stream.drop n) else none

/-- `read_qword_raw`: read 8 bytes and reinterpret them in native order. -/
def read_qword_raw (stream : List Nat) : Option (Nat × List Nat) :=
  (readExact 8 stream).map fun p => (fromBytes p.1, p.2)

/-- `read_qword_flipped_endian`: read 8 bytes, reverse, reinterpret. -/
def read_qword_flipped_endian (stream : List Nat) : Option (Nat × List Nat) :=
  (readExact 8 stream).map fun p => (fromBytes p.1.reverse, p.2)

/-- `write_qword_raw`, lib.rs lines 40-45: the code does not serialize
`val` — it casts the value itself to a pointer,
`(val as *const u64).cast()`, and writes the 8 bytes located at address
`val` (the read path uses `addr_of!(buf)` instead).  `mem` gives the
byte of process memory at each address, so the bytes written are
`mem[val..val+8]`. -/
def write_qword_raw (mem : Nat → Nat) (val : Nat) : List Nat :=
  (List.range 8).map fun i => mem (val + i)

/-- `write_qword_flipped_endian`, lib.rs lines 50-57: the same
integer-to-pointer cast, and the code additionally reverses the 8-byte
buffer at address `val` in place before writing it, so the bytes put on
the wire are the reverse of `mem[val..val+8]` (memory at address `val`
is mutated as a further side effect). -/
def write_qword_flipped_endian (mem : Nat → Nat) (val : Nat) : List Nat :=
  ((List.range 8).map fun i => mem (val + i)).reverse

/-- `read_dword_raw`: read 4 bytes and reinterpret them in native order. -/
def read_dword_raw (stream : List Nat) : Option (Nat × List Nat) :=
  (readExact 4 stream).map fun p => (fromBytes p.1, p.2)

/-- `read_dword_flipped_endian`: read 4 bytes, reverse, reinterpret. -/
def read_dword_flipped_endian (stream : List Nat) : Option (Nat × List Nat) :=
  (readExact 4 stream).map fun p => (fromBytes p.1.reverse, p.2)

/-- `write_dword_raw`, lib.rs lines 94-99: the same integer-to-pointer
cast at width 4 — the 4 bytes at address `val` are written. -/
def write_dword_raw (mem : Nat → Nat) (val : Nat) : List Nat :=
  (List.range 4).map fun i => mem (val + i)

/-- `write_dword_flipped_endian`, lib.rs lines 104-111: reverses the
4-byte buffer at address `val` in place and writes it. -/
def write_dword_flipped_endian (mem : Nat → Nat) (val : Nat) : List Nat :=
  ((List.range 4).map fun i => mem (val + i)).reverse

/-- Modelled from the spec: the repository's binary-opcode entry points
(not under src/) also move single-byte frames; `read_fixed` at width 1 is
an exact read of one byte interpreted as the value. -/
def read_fixed1 (stream : List Nat) : Option (Nat × List Nat) :=
  (readExact 1 stream).map fun p => (fromBytes p.1, p.2)

/-- Modelled from the spec: `write_fixed` at width 1 writes the single
byte of the value truncated to 8 bits. -/
def write_fixed1 (val : Nat) : List Nat :=
  toBytes 1 val

/-- The byte-order swap on a `w`-byte value: serialize, reverse the
bytes, reinterpret.  This is the value-level effect of the
`buf.reverse()` in the flipped-endian functions. -/
def swapBytes (w x : Nat) : Nat :=
  fromBytes ((toBytes w x).reverse)

/-! ## Line codec (src/lib.rs lines 128-151) -/

/-- `read_string_until_byte` via `BufRead::read_until`: consume bytes up
to and including the first `endbyte`; if the stream is exhausted first,
return everything read so far (this is the `Ok(0)`/end-of-stream case of
`read_until`).  Returns the bytes delivered to the caller and the
remaining stream. -/
def read_until_byte (endbyte : Nat) : List Nat → List Nat × List Nat
  | [] => ([], [])
  | b :: rest =>
    if b = endbyte then ([b], rest)
    else
      let p := read_until_byte endbyte rest
      (b :: p.1, p.2)

/-- `write_str_ends_with`: the bytes put on the wire, payload then one
terminator byte. -/
def write_str_ends_with (s : List Nat) (endbyte : Nat) : List Nat :=
  s ++ [endbyte]

/-! ## Action parser (src/lib.rs lines 153-212) -/

/-- Rust `u8::is_ascii_whitespace`: space, tab, line feed, form feed,
carriage return. -/
def isAsciiWhitespace (b : Nat) : Bool :=
  b == 32 || b == 9 || b == 10 || b == 12 || b == 13

/-- Accumulator worker for `split_ascii_whitespace`: `acc` holds the
bytes of the current token in reverse. -/
def splitAWAux : List Nat → List Nat → List (List Nat)
  | [], acc => if acc.isEmpty then [] else [acc.reverse]
  | b :: rest, acc =>
    if isAsciiWhitespace b then
      if acc.isEmpty then splitAWAux rest [] else acc.reverse :: splitAWAux rest []
    else
      splitAWAux rest (b :: acc)

/-- Rust `str::split_ascii_whitespace` over byte lists: the maximal runs
of non-whitespace bytes, in order. -/
def split_ascii_whitespace (l : List Nat) : List (List Nat) :=
  splitAWAux l []

/-- The `Action` enum of src/lib.rs. -/
inductive Action where
  | read : Action
  | write : List Nat → Action
deriving DecidableEq, Repr

/-- The `ActionConversionError` enum; the `String` log payloads of the
Rust constructors are dropped. -/
inductive ActionConversionError where
  | undefinedOpSequence : ActionConversionError
  | emptyOpSequence : ActionConversionError
  | malformedOpSequence : ActionConversionError
deriving DecidableEq, Repr

/-- The bytes of the literal "READ". -/
def READ_TOKEN : List Nat := [82, 69, 65, 68]

/-- The bytes of the literal "WRITE". -/
def WRITE_TOKEN : List Nat := [87, 82, 73, 84, 69]

/-- `impl TryFrom<&str> for Action`: split on ASCII whitespace; no first
token is `EmptyOpSequence`; first token "READ" returns `Action::Read` at
once; otherwise the remaining tokens are accumulated each with a trailing
space, and the op is dispatched: "WRITE" wraps the buffer, anything else
is `UndefinedOpSequence`. -/
def Action.tryFrom (action : List Nat) : Except ActionConversionError Action :=
  match split_ascii_whitespace action with
  | [] => .error .emptyOpSequence
  | op :: args =>
    if op = READ_TOKEN then .ok .read
    else
      let argBuff := args.foldl (fun buf s => buf ++ s ++ [32]) []
      if op = WRITE_TOKEN then .ok (.write argBuff)
      else .error .undefinedOpSequence

/-- `impl Display for Action`: `Read` renders as "READ", `Write(s)` as
"WRITE " followed by `s`. -/
def Action.display : Action → List Nat
  | .read => READ_TOKEN
  | .write s => WRITE_TOKEN ++ [32] ++ s

/-! ## Handshake (src/main.rs lines 63-130) -/

/-- `LF_TERM`, the line-feed terminator byte. -/
def LF_TERM : Nat := 10

/-- The bytes of `HANDSHAKE_TX_MSG`, "PC TO ARDUINO_1". -/
def HANDSHAKE_TX_MSG : List Nat :=
  [80, 67, 32, 84, 79, 32, 65, 82, 68, 85, 73, 78, 79, 95, 49]

/-- The bytes of `HANDSHAKE_RX_MSG`, "ARDUINO_1 TO PC". -/
def HANDSHAKE_RX_MSG : List Nat :=
  [65, 82, 68, 85, 73, 78, 79, 95, 49, 32, 84, 79, 32, 80, 67]

/-- A UTF-8 continuation byte, `0x80..=0xBF`. -/
def isUtf8Cont (b : Nat) : Bool :=
  128 ≤ b && b ≤ 191

/-- Rust `String::from_utf8` validity over byte lists: ASCII, 2-byte
sequences with lead `0xC2..=0xDF`, 3-byte sequences with lead
`0xE0..=0xEF` (excluding overlong forms and surrogates), 4-byte
sequences with lead `0xF0..=0xF4` (excluding overlong forms and values
past the last code point). -/
def utf8Valid : List Nat → Bool
  | [] => true
  | b :: rest =>
    if b ≤ 127 then utf8Valid rest
    else if b < 194 then false
    else if b ≤ 223 then
      match rest with
      | c1 :: rest1 => isUtf8Cont c1 && utf8Valid rest1
      | [] => false
    else if b ≤ 239 then
      match rest with
      | c1 :: c2 :: rest2 =>
        (if b = 224 then 160 ≤ c1 && c1 ≤ 191
         else if b = 237 then 128 ≤ c1 && c1 ≤ 159
         else isUtf8Cont c1) && isUtf8Cont c2 && utf8Valid rest2
      | _ => false
    else if b ≤ 244 then
      match rest with
      | c1 :: c2 :: c3 :: rest3 =>
        (if b = 240 then 144 ≤ c1 && c1 ≤ 191
         else if b = 244 then 128 ≤ c1 && c1 ≤ 143
         else isUtf8Cont c1) && isUtf8Cont c2 && isUtf8Cont c3 &&
          utf8Valid rest3
      | _ => false
    else false

/-- For a valid-UTF-8 string, the byte index `s.len() - 1` is a char
boundary exactly when the last byte is not a continuation byte; the
slice `&s[..s.len() - 1]` panics when it is one. -/
def lastByteIsContinuation (l : List Nat) : Bool :=
  match l.getLast? with
  | some b => isUtf8Cont b
  | none => false

/-- Oracle for one handshake attempt: the outcomes of the four transport
operations the attempt may perform, in program order.  `writeTx` is the
success of sending the TX challenge, `readRx` the raw bytes delivered by
the `read_until` of the response (`none` is an I/O error; the
`String::from_utf8` decode of those bytes is part of the model, not of
the oracle), `writeRx` the success of echoing the RX message,
`readFinal` the raw bytes of the final acknowledgement read.  The
diagnostic `bytes_to_read` query between the first write and read is
modelled as succeeding. -/
structure AttemptEnv where
  writeTx : Bool
  readRx : Option (List Nat)
  writeRx : Bool
  readFinal : Option (List Nat)

/-- Outcome of one attempt of the loop body: success returns from the
function, a retryable failure falls through to the next iteration, and
`panics` is the guard expression `&s[..s.len() - 1]` panicking — on an
empty response the index `s.len() - 1` underflows/overflows the string
bounds, and on a response whose last byte is a UTF-8 continuation byte
the slice end is not a char boundary. -/
inductive AttemptResult where
  | success : AttemptResult
  | retry : AttemptResult
  | panics : AttemptResult
deriving DecidableEq, Repr

/-- One iteration of the `for i in 1..=10` body of `handshake`: write the
challenge; read the response with `read_string_until_byte`, whose
`String::from_utf8` fails on invalid UTF-8 (the `Err` arm logs and
continues); evaluate the guard `&s[..s.len() - 1] == HANDSHAKE_RX_MSG`,
which panics on an empty response (index underflow) and on a response
ending in a continuation byte (non-char-boundary slice end); on a match,
echo the message back and read the final line, whose decode must also
succeed.  Every `Err` arm logs and continues (modelled as `retry`). -/
def runAttempt (e : AttemptEnv) : AttemptResult :=
  match e.writeTx with
  | false => .retry
  | true =>
    match e.readRx with
    | none => .retry
    | some s =>
      if utf8Valid s then
        if s.isEmpty then .panics
        else if lastByteIsContinuation s then .panics
        else if s.dropLast = HANDSHAKE_RX_MSG then
          match e.writeRx with
          | false => .retry
          | true =>
            match e.readFinal with
            | none => .retry
            | some t => if utf8Valid t then .success else .retry
        else .retry
      else .retry

/-- Result of `handshake` together with the attempt on which it was
decided: `ok i` is the `Ok(())` return from attempt `i`, `connectionRefused`
the `io::ErrorKind::ConnectionRefused` error after the loop, `panicked i`
the panic of attempt `i` in the comparison guard (empty response or
response ending in a continuation byte). -/
inductive HandshakeResult where
  | ok : Nat → HandshakeResult
  | connectionRefused : HandshakeResult
  | panicked : Nat → HandshakeResult
deriving DecidableEq, Repr

/-- The retry loop of `handshake` from attempt number `i` with `r`
iterations left, returning the result and the number of attempts
performed. -/
def handshakeGo (env : Nat → AttemptEnv) : Nat → Nat → HandshakeResult × Nat
  | _, 0 => (.connectionRefused, 0)
  | i, r + 1 =>
    match runAttempt (env i) with
    | .success => (.ok i, 1)
    | .panics => (.panicked i, 1)
    | .retry =>
      let p := handshakeGo env (i + 1) r
      (p.1, p.2 + 1)

/-- `handshake`: the bounded loop `for i in 1..=10`. -/
def handshake (env : Nat → AttemptEnv) : HandshakeResult × Nat :=
  handshakeGo env 1 10

/-- A responder attempt that reaches the comparison and mismatches: the
challenge write succeeds, a nonempty response arrives that decodes as
UTF-8 and does not end in a continuation byte (so the guard slice is on
a char boundary and does not panic), and its content with the last byte
stripped differs from `HANDSHAKE_RX_MSG`. -/
def mismatchAttempt (e : AttemptEnv) : Prop :=
  e.writeTx = true ∧
    ∃ s, e.readRx = some s ∧ utf8Valid s = true ∧ s ≠ [] ∧
      lastByteIsContinuation s = false ∧ s.dropLast ≠ HANDSHAKE_RX_MSG

/-- A responder attempt on which the whole exchange succeeds: both writes
succeed, the response decodes as UTF-8, is sliceable and matches after
stripping its last byte, and the final acknowledgement read succeeds and
decodes. -/
def successAttempt (e : AttemptEnv) : Prop :=
  e.writeTx = true ∧
    ∃ s, e.readRx = some s ∧ utf8Valid s = true ∧ s ≠ [] ∧
      lastByteIsContinuation s = false ∧ s.dropLast = HANDSHAKE_RX_MSG ∧
      e.writeRx = true ∧ ∃ t, e.readFinal = some t ∧ utf8Valid t = true

/-- A concrete always-mismatching responder: every attempt answers the
line "A\n". -/
def envAllMismatch : Nat → AttemptEnv :=
  fun _ => ⟨true, some [65, 10], true, some [79, 75, 10]⟩

/-- A concrete responder that mismatches on attempts 1 and 2 and answers
the expected line from attempt 3 on. -/
def envMatchAt3 : Nat → AttemptEnv :=
  fun i =>
    if i < 3 then ⟨true, some [65, 10], true, some [79, 75, 10]⟩
    else ⟨true, some (HANDSHAKE_RX_MSG ++ [10]), true, some [79, 75, 10]⟩

/-- A concrete responder whose first response is the empty string (the
transport hits end-of-stream before any byte). -/
def envEmptyResponse : Nat → AttemptEnv :=
  fun _ => ⟨true, some [], true, some [79, 75, 10]⟩

/-! ## Blocking command loop (src/main.rs lines 137-221) -/

/-- One `stdin().read_line` outcome feeding the loop: a line of bytes
(`Ok(n)` with `n` positive), or an I/O error; exhaustion of the event
list is the `Ok(0)` end-of-file case. -/
inductive StdinEvent where
  | line : List Nat → StdinEvent
  | ioErr : StdinEvent
deriving DecidableEq, Repr

/-- One `read_string_until_byte` outcome on the transport. -/
inductive ReadEvent where
  | ok : List Nat → ReadEvent
  | ioErr : ReadEvent
deriving DecidableEq, Repr

/-- One `write_str_ends_with` outcome on the transport. -/
inductive WriteEvent where
  | ok : WriteEvent
  | ioErr : WriteEvent
deriving DecidableEq, Repr

/-- Why the loop returned. -/
inductive ExitCause where
  | eofStdin : ExitCause
  | errStdin : ExitCause
  | errTransportRead : ExitCause
  | errTransportWrite : ExitCause
deriving DecidableEq, Repr

/-- Observable outcome of a run of the command loop: the bytes written to
stdout, the byte sequences sent to the transport (payload plus appended
terminator, in order), the total number of transport reads and writes
issued, and the exit cause. -/
structure LoopOut where
  stdout : List Nat
  sent : List (List Nat)
  nReads : Nat
  nWrites : Nat
  exit : ExitCause
deriving DecidableEq, Repr

/-- The body of `main`'s `loop` from src/main.rs, driven by oracles: the
`i`-th transport read returns `rO i`, the `i`-th transport write returns
`wO i`, and the stdin events are consumed from the list.  Per iteration:
EOF returns, a stdin error returns, a parse error logs and continues, a
`Read` action reads from the transport (error returns) and forwards the
result to stdout unchanged, a `Write p` action sends `p` with the LF
terminator appended (error returns).  Writing to stdout is modelled as
always succeeding. -/
def commandLoopGo (rO : Nat → ReadEvent) (wO : Nat → WriteEvent) :
    List StdinEvent → Nat → Nat → LoopOut
  | [], nR, nW => ⟨[], [], nR, nW, .eofStdin⟩
  | .ioErr :: _, nR, nW => ⟨[], [], nR, nW, .errStdin⟩
  | .line l :: rest, nR, nW =>
    match Action.tryFrom l with
    | .error _ => commandLoopGo rO wO rest nR nW
    | .ok .read =>
      match rO nR with
      | .ioErr => ⟨[], [], nR + 1, nW, .errTransportRead⟩
      | .ok resp =>
        let r := commandLoopGo rO wO rest (nR + 1) nW
        ⟨resp ++ r.stdout, r.sent, r.nReads, r.nWrites, r.exit⟩
    | .ok (.write p) =>
      match wO nW with
      | .ioErr => ⟨[], [], nR, nW + 1, .errTransportWrite⟩
      | .ok =>
        let r := commandLoopGo rO wO rest nR (nW + 1)
        ⟨r.stdout, (p ++ [LF_TERM]) :: r.sent, r.nReads, r.nWrites, r.exit⟩

/-- The command loop started with fresh operation counters. -/
def commandLoop (rO : Nat → ReadEvent) (wO : Nat → WriteEvent)
    (stdin : List StdinEvent) : LoopOut :=
  commandLoopGo rO wO stdin 0 0

/-- The payload delivered by the `i`-th transport read, if it succeeded. -/
def readsPayload (rO : Nat → ReadEvent) (i : Nat) : Option (List Nat) :=
  match rO i with
  | .ok s => some s
  | .ioErr => none

/-- A read oracle that always answers the line "OK\n". -/
def readOracleOkLine : Nat → ReadEvent :=
  fun _ => .ok [79, 75, 10]

/-- A write oracle that always succeeds. -/
def writeOracleOk : Nat → WriteEvent :=
  fun _ => .ok

/-- A read oracle that always fails. -/
def readOracleErr : Nat → ReadEvent :=
  fun _ => .ioErr

/-- A write oracle that always fails. -/
def writeOracleErr : Nat → WriteEvent :=
  fun _ => .ioErr

/-! ## Byte codec lemmas -/

theorem toBytes_length (w v : Nat) : (toBytes w v).length = w := by
  induction w generalizing v with
  | zero => rfl
  | succ w ih => simp [toBytes, ih]

theorem toBytes_bytes_lt (w v : Nat) : ∀ b ∈ toBytes w v, b < 256 := by
  induction w generalizing v with
  | zero => simp [toBytes]
  | succ w ih =>
    intro b hb
    simp only [toBytes, List.mem_cons] at hb
    rcases hb with rfl | hb
    · exact Nat.mod_lt _ (by norm_num)
    · exact ih _ b hb

theorem fromBytes_toBytes (w v : Nat) : fromBytes (toBytes w v) = v % 256 ^ w := by
  induction w generalizing v with
  | zero => simp [toBytes, fromBytes, Nat.mod_one]
  | succ w ih =>
    simp only [toBytes, fromBytes, ih]
    rw [pow_succ, Nat.mul_comm (256 ^ w) 256, Nat.mod_mul]

theorem toBytes_fromBytes (l : List Nat) (h : ∀ b ∈ l, b < 256) :
    toBytes l.length (fromBytes l) = l := by
  induction l with
  | nil => rfl
  | cons b rest ih =>
    have hb : b < 256 := h b (List.mem_cons_self b rest)
    simp only [List.length_cons, toBytes, fromBytes]
    rw [Nat.add_mul_mod_self_left, Nat.mod_eq_of_lt hb,
      Nat.add_mul_div_left _ _ (by norm_num : 0 < 256), Nat.div_eq_of_lt hb,
      Nat.zero_add]
    exact congrArg (b :: ·) (ih fun x hx => h x (List.mem_cons_of_mem b hx))

theorem readExact_of_length (n : Nat) (l rest : List Nat) (h : l.length = n) :
    readExact n (l ++ rest) = some (l, rest) := by
  subst h
  rw [readExact, if_pos (by simp), List.take_left, List.drop_left]

theorem swapBytes_involutive (w x : Nat) (hx : x < 2 ^ (8 * w)) :
    swapBytes w (swapBytes w x) = x := by
  have h256 : (256 : Nat) ^ w = 2 ^ (8 * w) := by
    rw [pow_mul]; norm_num
  have hlen : (toBytes w x).reverse.length = w := by
    simp [toBytes_length]
  have hbytes : ∀ b ∈ (toBytes w x).reverse, b < 256 := by
    intro b hb
    exact toBytes_bytes_lt w x b (List.mem_reverse.mp hb)
  have hinner := toBytes_fromBytes ((toBytes w x).reverse) hbytes
  rw [hlen] at hinner
  show fromBytes ((toBytes w (fromBytes (toBytes w x).reverse)).reverse) = x
  rw [hinner, List.reverse_reverse, fromBytes_toBytes, h256, Nat.mod_eq_of_lt hx]

/-- C5: the write path of the byte codec does not serialize the value,
so the write-then-read round trip the spec states fails on the code as
written.  `write_qword_raw` casts `val` itself to a pointer and writes
the 8 bytes at address `val`: with all-zero memory and `val = 1`, the
bytes written are eight zeros — not `toBytes 8 1` — and reading them
back yields 0, not 1.  The functions' own doc comments ("Tries to write
a raw QWORD to the given port") and the correct `addr_of!(buf)` pattern
of the read path show serialization of `val` was the intent. -/
theorem codec_write_addr_bug :
    write_qword_raw (fun _ => 0) 1 = [0, 0, 0, 0, 0, 0, 0, 0]
  ∧ write_qword_raw (fun _ => 0) 1 ≠ toBytes 8 1
  ∧ read_qword_raw (write_qword_raw (fun _ => 0) 1 ++ []) = some (0, [])
  ∧ (0 : Nat) ≠ 1 % 2 ^ 64 := by
  refine ⟨by decide, by decide, by decide, by decide⟩

/-! ## Line codec lemmas -/

/-- Counterexample for C6: on a stream that is exhausted before any
terminator appears, `read_until_byte` still succeeds (the end-of-stream
case of `BufRead::read_until`), and the returned sequence does not
include the terminator. -/
theorem read_until_missing_terminator_cex :
    (read_until_byte 10 [65]).1 = [65] ∧ 10 ∉ (read_until_byte 10 [65]).1 := by
  decide

/-- C6 (amended): if the terminator occurs in the stream, the successful
result of `read_until_byte` is exactly the bytes up to and including its
first occurrence; if the stream ends first, the result is the whole
stream, without any terminator.  The concrete conjunct is the spec's own
example, "ARDUINO_1 TO PC\n" in and back out unchanged. -/
theorem read_until_characterization (b : Nat) (l : List Nat) :
    (b ∈ l → (read_until_byte b l).1 = l.takeWhile (fun c => c != b) ++ [b])
  ∧ (b ∉ l → (read_until_byte b l).1 = l)
  ∧ (read_until_byte 10 (HANDSHAKE_RX_MSG ++ [10])).1 = HANDSHAKE_RX_MSG ++ [10] := by
  refine ⟨?_, ?_, by decide⟩
  · intro hmem
    induction l with
    | nil => cases hmem
    | cons a rest ih =>
      by_cases ha : a = b
      · subst ha
        simp [read_until_byte, List.takeWhile_cons]
      · have hrest : b ∈ rest := by
          rcases List.mem_cons.mp hmem with h | h
          · exact absurd h.symm ha
          · exact h
        simp [read_until_byte, ha, List.takeWhile_cons, bne_iff_ne, ih hrest]
  · intro hmem
    induction l with
    | nil => rfl
    | cons a rest ih =>
      have ha : ¬a = b := fun h => hmem (h ▸ List.mem_cons_self a rest)
      have hrest : b ∉ rest := fun h => hmem (List.mem_cons_of_mem a h)
      simp [read_until_byte, ha, ih hrest]

/-- Witness for C6: the characterization applied at terminator 10 to a
stream that contains it and to one that does not. -/
theorem read_until_characterization_witness :
    (read_until_byte 10 [65, 10, 66]).1
        = [65, 10, 66].takeWhile (fun c => c != 10) ++ [10]
  ∧ (read_until_byte 10 [65, 66]).1 = [65, 66] :=
  ⟨(read_until_characterization 10 [65, 10, 66]).1 (by decide),
   (read_until_characterization 10 [65, 66]).2.1 (by decide)⟩

/-! ## Parser lemmas -/

theorem foldl_append_tokens (ts : List (List Nat)) (init : List Nat) :
    ts.foldl (fun buf s => buf ++ s ++ [32]) init
      = init ++ (ts.map (fun t => t ++ [32])).flatten := by
  induction ts generalizing init with
  | nil => simp
  | cons t ts ih =>
    simp only [List.foldl_cons, List.map_cons, List.flatten_cons, ih]
    simp [List.append_assoc]

theorem splitAWAux_nonWS (t : List Nat)
    (ht : ∀ b ∈ t, isAsciiWhitespace b = false) (l acc : List Nat) :
    splitAWAux (t ++ l) acc = splitAWAux l (t.reverse ++ acc) := by
  induction t generalizing acc with
  | nil => simp
  | cons b t ih =>
    have hb : isAsciiWhitespace b = false := ht b (List.mem_cons_self b t)
    have ht2 : ∀ x ∈ t, isAsciiWhitespace x = false :=
      fun x hx => ht x (List.mem_cons_of_mem b hx)
    rw [List.cons_append,
      show splitAWAux (b :: (t ++ l)) acc = splitAWAux (t ++ l) (b :: acc) from by
        simp [splitAWAux, hb],
      ih ht2 (b :: acc), List.reverse_cons, List.append_assoc,
      List.singleton_append]

theorem split_cons_token (t : List Nat) (hne : t ≠ [])
    (ht : ∀ b ∈ t, isAsciiWhitespace b = false) (rest : List Nat) :
    split_ascii_whitespace (t ++ 32 :: rest) = t :: split_ascii_whitespace rest := by
  unfold split_ascii_whitespace
  rw [splitAWAux_nonWS t ht (32 :: rest) [], List.append_nil]
  have hrev : t.reverse.isEmpty = false := by
    simp [List.isEmpty_iff, hne]
  simp [splitAWAux, isAsciiWhitespace, hrev]

theorem splitAWAux_tokens (l : List Nat) :
    ∀ acc, (∀ b ∈ acc, isAsciiWhitespace b = false) →
      ∀ t ∈ splitAWAux l acc,
        t ≠ [] ∧ ∀ b ∈ t, isAsciiWhitespace b = false := by
  induction l with
  | nil =>
    intro acc hacc t ht
    simp only [splitAWAux] at ht
    by_cases he : acc.isEmpty
    · rw [if_pos he] at ht
      cases ht
    · rw [if_neg he] at ht
      rcases List.mem_singleton.mp ht with rfl
      refine ⟨?_, ?_⟩
      · simp only [ne_eq, List.reverse_eq_nil_iff]
        exact fun h => he (by simp [h])
      · intro b hb
        exact hacc b (List.mem_reverse.mp hb)
  | cons c rest ih =>
    intro acc hacc t ht
    simp only [splitAWAux] at ht
    by_cases hc : isAsciiWhitespace c
    · rw [if_pos hc] at ht
      by_cases he : acc.isEmpty
      · rw [if_pos he] at ht
        exact ih [] (by simp) t ht
      · rw [if_neg he] at ht
        rcases List.mem_cons.mp ht with rfl | hmem
        · refine ⟨?_, ?_⟩
          · simp only [ne_eq, List.reverse_eq_nil_iff]
            exact fun h => he (by simp [h])
          · intro b hb
            exact hacc b (List.mem_reverse.mp hb)
        · exact ih [] (by simp) t hmem
    · rw [if_neg hc] at ht
      refine ih (c :: acc) ?_ t ht
      intro b hb
      rcases List.mem_cons.mp hb with rfl | hb
      · exact Bool.not_eq_true _ ▸ (by simpa using hc)
      · exact hacc b hb

theorem split_tokens_valid (l : List Nat) :
    ∀ t ∈ split_ascii_whitespace l,
      t ≠ [] ∧ ∀ b ∈ t, isAsciiWhitespace b = false :=
  splitAWAux_tokens l [] (by simp)

theorem split_join_tokens (ts : List (List Nat))
    (h : ∀ t ∈ ts, t ≠ [] ∧ ∀ b ∈ t, isAsciiWhitespace b = false) :
    split_ascii_whitespace ((ts.map (fun t => t ++ [32])).flatten) = ts := by
  induction ts with
  | nil => rfl
  | cons t ts ih =>
    have hhead := h t (List.mem_cons_self t ts)
    have htail : ∀ x ∈ ts, x ≠ [] ∧ ∀ b ∈ x, isAsciiWhitespace b = false :=
      fun x hx => h x (List.mem_cons_of_mem t hx)
    simp only [List.map_cons, List.flatten_cons, List.append_assoc, List.singleton_append]
    rw [split_cons_token t hhead.1 hhead.2, ih htail]

theorem tryFrom_of_split_nil (l : List Nat)
    (h : split_ascii_whitespace l = []) :
    Action.tryFrom l = .error .emptyOpSequence := by
  rw [Action.tryFrom, h]

theorem tryFrom_of_split_cons (l : List Nat) (op : List Nat)
    (args : List (List Nat)) (h : split_ascii_whitespace l = op :: args) :
    Action.tryFrom l =
      if op = READ_TOKEN then .ok .read
      else if op = WRITE_TOKEN then
        .ok (.write (args.foldl (fun buf s => buf ++ s ++ [32]) []))
      else .error .undefinedOpSequence := by
  rw [Action.tryFrom, h]

/-- C3: the action parser classifies by the first whitespace token: no
tokens is `EmptyOpSequence`; a first token equal to "READ" yields
`Action::Read` whatever follows; a first token that is neither "READ" nor
"WRITE" yields `UndefinedOpSequence`.  The closed conjuncts are the
spec's examples "READ\n", "" and "PING 1\n". -/
theorem action_parser_classification :
    (∀ l, split_ascii_whitespace l = [] →
      Action.tryFrom l = .error .emptyOpSequence)
  ∧ (∀ l t ts, split_ascii_whitespace l = t :: ts → t = READ_TOKEN →
      Action.tryFrom l = .ok .read)
  ∧ (∀ l t ts, split_ascii_whitespace l = t :: ts → t ≠ READ_TOKEN →
      t ≠ WRITE_TOKEN → Action.tryFrom l = .error .undefinedOpSequence)
  ∧ Action.tryFrom [82, 69, 65, 68, 10] = .ok .read
  ∧ Action.tryFrom [] = .error .emptyOpSequence
  ∧ Action.tryFrom [80, 73, 78, 71, 32, 49, 10] = .error .undefinedOpSequence := by
  refine ⟨?_, ?_, ?_, rfl, rfl, rfl⟩
  · intro l h
    exact tryFrom_of_split_nil l h
  · intro l t ts h ht
    rw [tryFrom_of_split_cons l t ts h, if_pos ht]
  · intro l t ts h ht hw
    rw [tryFrom_of_split_cons l t ts h, if_neg ht, if_neg hw]

/-- Witness for C3: the three universally quantified conjuncts applied to
the concrete inputs "", "READ X" and "PING". -/
theorem action_parser_classification_witness :
    Action.tryFrom [] = .error .emptyOpSequence
  ∧ Action.tryFrom [82, 69, 65, 68, 32, 88] = .ok .read
  ∧ Action.tryFrom [80, 73, 78, 71] = .error .undefinedOpSequence :=
  ⟨action_parser_classification.1 [] rfl,
   action_parser_classification.2.1 [82, 69, 65, 68, 32, 88]
     [82, 69, 65, 68] [[88]] rfl rfl,
   action_parser_classification.2.2.1 [80, 73, 78, 71] [80, 73, 78, 71] []
     rfl (by decide) (by decide)⟩

/-- C4: for any line whose first whitespace token is "WRITE", the parser
returns `Action::Write` of the remaining tokens rejoined with one
trailing space after each, including the last; in particular
"WRITE foo bar\n" parses to `Write("foo bar ")`. -/
theorem write_action_payload :
    (∀ l ts, split_ascii_whitespace l = WRITE_TOKEN :: ts →
      Action.tryFrom l = .ok (.write ((ts.map (fun t => t ++ [32])).flatten)))
  ∧ Action.tryFrom [87, 82, 73, 84, 69, 32, 102, 111, 111, 32, 98, 97, 114, 10]
      = .ok (.write [102, 111, 111, 32, 98, 97, 114, 32]) := by
  refine ⟨?_, rfl⟩
  intro l ts h
  rw [tryFrom_of_split_cons l WRITE_TOKEN ts h,
    if_neg (by decide : ¬WRITE_TOKEN = READ_TOKEN), if_pos rfl,
    foldl_append_tokens, List.nil_append]

/-- Witness for C4: the universal conjunct applied to "WRITE foo bar\n". -/
theorem write_action_payload_witness :
    Action.tryFrom [87, 82, 73, 84, 69, 32, 102, 111, 111, 32, 98, 97, 114, 10]
      = .ok (.write (([[102, 111, 111], [98, 97, 114]].map
          (fun t => t ++ [32])).flatten)) :=
  write_action_payload.1
    [87, 82, 73, 84, 69, 32, 102, 111, 111, 32, 98, 97, 114, 10]
    [[102, 111, 111], [98, 97, 114]] rfl

/-- C10: parsing is a left inverse of display on parsed actions — if a
line parses to an action, rendering that action with the `Display`
implementation and re-parsing yields the same action. -/
theorem parse_display_round_trip (l : List Nat) (a : Action)
    (h : Action.tryFrom l = .ok a) :
    Action.tryFrom a.display = .ok a := by
  cases hsplit : split_ascii_whitespace l with
  | nil =>
    rw [tryFrom_of_split_nil l hsplit] at h
    cases h
  | cons op args =>
    rw [tryFrom_of_split_cons l op args hsplit] at h
    by_cases hop : op = READ_TOKEN
    · rw [if_pos hop] at h
      cases h
      rfl
    · rw [if_neg hop] at h
      by_cases hw : op = WRITE_TOKEN
      · rw [if_pos hw] at h
        cases h
        have hvalid : ∀ t ∈ args, t ≠ [] ∧ ∀ b ∈ t, isAsciiWhitespace b = false :=
          fun t ht => split_tokens_valid l t (hsplit ▸ List.mem_cons_of_mem op ht)
        have hfold : args.foldl (fun buf s => buf ++ s ++ [32]) []
            = (args.map (fun t => t ++ [32])).flatten := by
          rw [foldl_append_tokens, List.nil_append]
        have hsplit2 : split_ascii_whitespace
            (WRITE_TOKEN ++ [32] ++ args.foldl (fun buf s => buf ++ s ++ [32]) [])
            = WRITE_TOKEN :: args := by
          rw [List.append_assoc, List.singleton_append, hfold,
            split_cons_token WRITE_TOKEN (by decide) (by decide),
            split_join_tokens args hvalid]
        rw [show Action.display (.write (args.foldl (fun buf s => buf ++ s ++ [32]) []))
            = WRITE_TOKEN ++ [32] ++ args.foldl (fun buf s => buf ++ s ++ [32]) []
          from rfl]
        rw [tryFrom_of_split_cons _ WRITE_TOKEN args hsplit2,
          if_neg (by decide : ¬WRITE_TOKEN = READ_TOKEN), if_pos rfl]
      · rw [if_neg hw] at h
        cases h

/-- Witness for C10: the round trip applied to the parse of
"WRITE foo bar\n". -/
theorem parse_display_round_trip_witness :
    Action.tryFrom
        (Action.display (.write [102, 111, 111, 32, 98, 97, 114, 32]))
      = .ok (.write [102, 111, 111, 32, 98, 97, 114, 32]) :=
  parse_display_round_trip
    [87, 82, 73, 84, 69, 32, 102, 111, 111, 32, 98, 97, 114, 10]
    (.write [102, 111, 111, 32, 98, 97, 114, 32]) rfl

/-! ## Handshake lemmas -/

theorem runAttempt_of_mismatch (e : AttemptEnv) (h : mismatchAttempt e) :
    runAttempt e = .retry := by
  obtain ⟨hw, s, hr, hv, hne, hlb, hmm⟩ := h
  rw [runAttempt, hw, hr]
  simp [hv, List.isEmpty_iff, hne, hlb, hmm]

theorem runAttempt_of_success (e : AttemptEnv) (h : successAttempt e) :
    runAttempt e = .success := by
  obtain ⟨hw, s, hr, hv, hne, hlb, hok, hwr, t, hf, hvt⟩ := h
  rw [runAttempt, hw, hr, hwr, hf]
  simp [hv, List.isEmpty_iff, hne, hlb, hok, hvt]

theorem handshakeGo_all_retry (env : Nat → AttemptEnv) :
    ∀ r i, (∀ j, i ≤ j → j < i + r → runAttempt (env j) = .retry) →
      handshakeGo env i r = (.connectionRefused, r) := by
  intro r
  induction r with
  | zero => intro i _; rfl
  | succ r ih =>
    intro i h
    rw [handshakeGo, h i le_rfl (by omega),
      ih (i + 1) fun j hj1 hj2 => h j (by omega) (by omega)]

theorem handshakeGo_success_at (env : Nat → AttemptEnv) :
    ∀ r i k, i ≤ k → k < i + r →
      (∀ j, i ≤ j → j < k → runAttempt (env j) = .retry) →
      runAttempt (env k) = .success →
      handshakeGo env i r = (.ok k, k + 1 - i) := by
  intro r
  induction r with
  | zero => intro i k h1 h2 _ _; omega
  | succ r ih =>
    intro i k hik hkr hpre hk
    rcases Nat.eq_or_lt_of_le hik with rfl | hlt
    · rw [handshakeGo, hk, Nat.add_sub_cancel_left]
    · rw [handshakeGo, hpre i le_rfl hlt]
      show ((handshakeGo env (i + 1) r).1, (handshakeGo env (i + 1) r).2 + 1)
        = (HandshakeResult.ok k, k + 1 - i)
      rw [ih (i + 1) k hlt (by omega) (fun j hj1 hj2 => hpre j (by omega) hj2) hk]
      have harith : k + 1 - (i + 1) + 1 = k + 1 - i := by omega
      rw [harith]

/-- C1: the handshake runs a bounded retry loop with an attempt budget of
exactly 10.  Against a responder that reaches the comparison and
mismatches on every attempt (a decodable, nonempty, boundary-sliceable
response with the wrong content) it returns the connection-refused error
after exactly 10 attempts; against a responder whose attempt `k`
(1 ≤ k ≤ 10) succeeds, after such mismatches before it, it returns Ok
on attempt `k` and performs no further attempts. -/
theorem handshake_bounded_retry (env : Nat → AttemptEnv) :
    ((∀ i, 1 ≤ i → i ≤ 10 → mismatchAttempt (env i)) →
      handshake env = (.connectionRefused, 10))
  ∧ (∀ k, 1 ≤ k → k ≤ 10 →
      (∀ j, 1 ≤ j → j < k → mismatchAttempt (env j)) →
      successAttempt (env k) →
      handshake env = (.ok k, k)) := by
  constructor
  · intro h
    exact handshakeGo_all_retry env 10 1 fun j hj1 hj2 =>
      runAttempt_of_mismatch (env j) (h j hj1 (by omega))
  · intro k hk1 hk10 hpre hsucc
    have := handshakeGo_success_at env 10 1 k hk1 (by omega)
      (fun j hj1 hj2 => runAttempt_of_mismatch (env j) (hpre j hj1 hj2))
      (runAttempt_of_success (env k) hsucc)
    rw [handshake, this, Nat.add_sub_cancel]

/-- Witness for C1: the always-mismatching responder takes exactly 10
attempts and is refused; the responder matching from attempt 3 succeeds
on attempt 3 with no further attempts. -/
theorem handshake_bounded_retry_witness :
    handshake envAllMismatch = (.connectionRefused, 10)
  ∧ handshake envMatchAt3 = (.ok 3, 3) :=
  ⟨(handshake_bounded_retry envAllMismatch).1
    (fun i _ _ => ⟨rfl, [65, 10], rfl, by decide, by decide, by decide, by decide⟩),
   (handshake_bounded_retry envMatchAt3).2 3 (by decide) (by decide)
    (fun j _ hj => by
      rw [show envMatchAt3 j = ⟨true, some [65, 10], true, some [79, 75, 10]⟩ from
        by rw [envMatchAt3, if_pos hj]]
      exact ⟨rfl, [65, 10], rfl, by decide, by decide, by decide, by decide⟩)
    (by
      rw [show envMatchAt3 3
          = ⟨true, some (HANDSHAKE_RX_MSG ++ [10]), true, some [79, 75, 10]⟩ from rfl]
      exact ⟨rfl, HANDSHAKE_RX_MSG ++ [10], rfl, by decide, by decide, by decide,
        by decide, rfl, [79, 75, 10], rfl, by decide⟩)⟩

/-- C9: if the response read in the await-response step of the first
handshake attempt returns the empty string (end-of-stream with no data
before the terminator), `handshake` panics on the slice index
`s.len() - 1` instead of returning a typed error or retrying. -/
theorem handshake_empty_response_panics (env : Nat → AttemptEnv)
    (hw : (env 1).writeTx = true) (hr : (env 1).readRx = some []) :
    handshake env = (.panicked 1, 1) := by
  have h1 : runAttempt (env 1) = .panics := by
    rw [runAttempt, hw, hr]
    rfl
  rw [handshake, handshakeGo, h1]

/-- Witness for C9: the concrete responder whose first response is
empty. -/
theorem handshake_empty_response_panics_witness :
    (envEmptyResponse 1).writeTx = true
  ∧ (envEmptyResponse 1).readRx = some []
  ∧ handshake envEmptyResponse = (.panicked 1, 1) :=
  ⟨rfl, rfl, handshake_empty_response_panics envEmptyResponse rfl rfl⟩

/-! ## Command loop lemmas -/

theorem commandLoopGo_nReads_le (rO : Nat → ReadEvent) (wO : Nat → WriteEvent) :
    ∀ (stdin : List StdinEvent) (nR nW : Nat),
      nR ≤ (commandLoopGo rO wO stdin nR nW).nReads := by
  intro stdin
  induction stdin with
  | nil => intro nR nW; exact le_rfl
  | cons ev rest ih =>
    intro nR nW
    cases ev with
    | ioErr => exact le_rfl
    | line l =>
      show nR ≤ (commandLoopGo rO wO (.line l :: rest) nR nW).nReads
      rw [commandLoopGo]
      cases htf : Action.tryFrom l with
      | error e => exact ih nR nW
      | ok a =>
        cases a with
        | read =>
          cases hr : rO nR with
          | ioErr => exact Nat.le_succ_of_le le_rfl
          | ok resp => exact Nat.le_of_succ_le (Nat.succ_le_of_lt
              (Nat.lt_of_lt_of_le (Nat.lt_succ_self nR) (ih (nR + 1) nW)))
        | write p =>
          cases hw : wO nW with
          | ioErr => exact le_rfl
          | ok => exact ih nR (nW + 1)

/-- Counterexample for C2: with the device answering the line "OK\n" to
a single READ command, the bytes forwarded to stdout are "OK\n" — the
response including its trailing terminator — not the stripped "OK". -/
theorem stdout_keeps_terminator_cex :
    (commandLoop readOracleOkLine writeOracleOk [.line [82, 69, 65, 68, 10]]).stdout
        = [79, 75, 10]
  ∧ (commandLoop readOracleOkLine writeOracleOk [.line [82, 69, 65, 68, 10]]).stdout
        ≠ [79, 75] := by
  constructor
  · rfl
  · intro h
    cases h

/-- C2 (amended): for every Read action processed by the command loop the
payload forwarded to stdout is the device's response verbatim, terminator
included: the stdout bytes are exactly the concatenation, in order, of
the payloads of the successful transport reads the loop performed. -/
theorem stdout_forwards_responses_verbatim (rO : Nat → ReadEvent)
    (wO : Nat → WriteEvent) :
    ∀ (stdin : List StdinEvent) (nR nW : Nat),
      (commandLoopGo rO wO stdin nR nW).stdout =
        ((List.range' nR ((commandLoopGo rO wO stdin nR nW).nReads - nR)).filterMap
          (readsPayload rO)).flatten := by
  intro stdin
  induction stdin with
  | nil =>
    intro nR nW
    show ([] : List Nat)
      = ((List.range' nR (nR - nR)).filterMap (readsPayload rO)).flatten
    simp
  | cons ev rest ih =>
    intro nR nW
    cases ev with
    | ioErr =>
      show ([] : List Nat)
        = ((List.range' nR (nR - nR)).filterMap (readsPayload rO)).flatten
      simp
    | line l =>
      show (commandLoopGo rO wO (.line l :: rest) nR nW).stdout = _
      rw [commandLoopGo]
      cases htf : Action.tryFrom l with
      | error e => exact ih nR nW
      | ok a =>
        cases a with
        | read =>
          cases hr : rO nR with
          | ioErr =>
            show ([] : List Nat) =
              ((List.range' nR (nR + 1 - nR)).filterMap (readsPayload rO)).flatten
            rw [Nat.add_sub_cancel_left]
            simp [List.range'_succ, readsPayload, hr]
          | ok resp =>
            have hm : nR + 1 ≤ (commandLoopGo rO wO rest (nR + 1) nW).nReads :=
              commandLoopGo_nReads_le rO wO rest (nR + 1) nW
            show resp ++ (commandLoopGo rO wO rest (nR + 1) nW).stdout =
              ((List.range' nR
                  ((commandLoopGo rO wO rest (nR + 1) nW).nReads - nR)).filterMap
                (readsPayload rO)).flatten
            rw [ih (nR + 1) nW,
              show (commandLoopGo rO wO rest (nR + 1) nW).nReads - nR
                = ((commandLoopGo rO wO rest (nR + 1) nW).nReads - (nR + 1)) + 1
                from by omega,
              List.range'_succ]
            simp [readsPayload, hr]
        | write p =>
          cases hw : wO nW with
          | ioErr =>
            show ([] : List Nat) =
              ((List.range' nR (nR - nR)).filterMap (readsPayload rO)).flatten
            simp
          | ok =>
            show (commandLoopGo rO wO rest nR (nW + 1)).stdout = _
            exact ih nR (nW + 1)

/-- C7: in the blocking command loop a transport I/O failure is fatal on
the read path and on the write path — the loop returns at once with the
corresponding exit cause, processing none of the remaining input — while
a parse failure of the input action is non-fatal: the loop continues with
the remaining input unchanged. -/
theorem command_loop_error_policy (rO : Nat → ReadEvent) (wO : Nat → WriteEvent)
    (l : List Nat) (rest : List StdinEvent) (nR nW : Nat) :
    (Action.tryFrom l = .ok .read → rO nR = .ioErr →
      commandLoopGo rO wO (.line l :: rest) nR nW
        = ⟨[], [], nR + 1, nW, .errTransportRead⟩)
  ∧ (∀ p, Action.tryFrom l = .ok (.write p) → wO nW = .ioErr →
      commandLoopGo rO wO (.line l :: rest) nR nW
        = ⟨[], [], nR, nW + 1, .errTransportWrite⟩)
  ∧ (∀ e, Action.tryFrom l = .error e →
      commandLoopGo rO wO (.line l :: rest) nR nW
        = commandLoopGo rO wO rest nR nW) := by
  refine ⟨?_, ?_, ?_⟩
  · intro h1 h2
    rw [commandLoopGo, h1, h2]
  · intro p h1 h2
    rw [commandLoopGo, h1, h2]
  · intro e h1
    rw [commandLoopGo, h1]

/-- Witness for C7: a failing read under "READ\n", a failing write under
"WRITE foo\n", and a parse error under "PING\n", each with further input
pending. -/
theorem command_loop_error_policy_witness :
    commandLoopGo readOracleErr writeOracleErr
        [.line [82, 69, 65, 68, 10], .line [82, 69, 65, 68, 10]] 0 0
      = ⟨[], [], 1, 0, .errTransportRead⟩
  ∧ commandLoopGo readOracleErr writeOracleErr
        [.line [87, 82, 73, 84, 69, 32, 102, 111, 111, 10]] 0 0
      = ⟨[], [], 0, 1, .errTransportWrite⟩
  ∧ commandLoopGo readOracleErr writeOracleErr
        [.line [80, 73, 78, 71, 10]] 0 0
      = commandLoopGo readOracleErr writeOracleErr [] 0 0 :=
  ⟨(command_loop_error_policy readOracleErr writeOracleErr
      [82, 69, 65, 68, 10] [.line [82, 69, 65, 68, 10]] 0 0).1 rfl rfl,
   (command_loop_error_policy readOracleErr writeOracleErr
      [87, 82, 73, 84, 69, 32, 102, 111, 111, 10] [] 0 0).2.1
      [102, 111, 111, 32] rfl rfl,
   (command_loop_error_policy readOracleErr writeOracleErr
      [80, 73, 78, 71, 10] [] 0 0).2.2 .undefinedOpSequence rfl⟩

/-- C8: if the input source is exhausted immediately (EOF with zero bytes
read), the command loop terminates cleanly without issuing any read or
write on the transport: no transport operation counts, nothing sent,
nothing forwarded. -/
theorem command_loop_eof_clean (rO : Nat → ReadEvent) (wO : Nat → WriteEvent) :
    commandLoop rO wO [] = ⟨[], [], 0, 0, .eofStdin⟩ :=
  rfl

end SerialCommunicator
